import Mathlib

/-!
A verification development for the claude-telegram-relay repository.

The TypeScript sources are shallowly embedded as executable Lean
definitions: strings become `String`/`List Char`, the Supabase tables
become lists of row structures threaded through the operations, and
JavaScript promises/exceptions become `Option`/`Except` values.  The
four directive regexes (`[ACTION: ...]`, `[REMEMBER: ...]`,
`[GOAL: ...]`, `[DONE: ...]`) are hand-compiled into backtracking
matchers that follow the JavaScript regex engine's search order
(greedy `\s*`, lazy `+?`, prefer-present optional groups, leftmost
match, `g`-flag scanning that resumes after each match).
-/

/-! ## Character and string utilities (JS semantics) -/

/-- ASCII lower-casing, the fragment of JavaScript `toLowerCase`/`i`-flag
case folding relevant to the directive grammar (all tag keywords are
ASCII). Non-ASCII characters are returned unchanged. -/
def asciiLower (c : Char) : Char :=
  match c with
  | 'A' => 'a' | 'B' => 'b' | 'C' => 'c' | 'D' => 'd' | 'E' => 'e'
  | 'F' => 'f' | 'G' => 'g' | 'H' => 'h' | 'I' => 'i' | 'J' => 'j'
  | 'K' => 'k' | 'L' => 'l' | 'M' => 'm' | 'N' => 'n' | 'O' => 'o'
  | 'P' => 'p' | 'Q' => 'q' | 'R' => 'r' | 'S' => 's' | 'T' => 't'
  | 'U' => 'u' | 'V' => 'v' | 'W' => 'w' | 'X' => 'x' | 'Y' => 'y'
  | 'Z' => 'z'
  | c => c

/-- Case-insensitive character comparison, as used by the `i` regex flag. -/
def charEqCI (a b : Char) : Bool :=
  asciiLower a == asciiLower b

/-- JavaScript `\s` (regex whitespace class) and the characters trimmed
by `String.prototype.trim`. -/
def isJsWs (c : Char) : Bool :=
  c == ' ' || c == '\t' || c == '\n' || c == '\r' ||
  c.toNat == 0x0b || c.toNat == 0x0c || c.toNat == 0xa0 ||
  c.toNat == 0x1680 || (0x2000 ≤ c.toNat && c.toNat ≤ 0x200a) ||
  c.toNat == 0x2028 || c.toNat == 0x2029 || c.toNat == 0x202f ||
  c.toNat == 0x205f || c.toNat == 0x3000 || c.toNat == 0xfeff

/-- JavaScript `String.prototype.trim` on a character list. -/
def jsTrimList (l : List Char) : List Char :=
  ((l.dropWhile isJsWs).reverse.dropWhile isJsWs).reverse

/-- JavaScript `String.prototype.trim`. -/
def jsTrim (s : String) : String :=
  String.mk (jsTrimList s.data)

/-- JavaScript `s.toLowerCase()` restricted to ASCII folding. -/
def jsToLower (s : String) : String :=
  String.mk (s.data.map asciiLower)

/-- `cleaned.replace(pat, "")` for a plain (non-regex) search string:
removes the first occurrence of `pat`, if any. -/
def replaceFirst (s pat : List Char) : List Char :=
  if pat.isPrefixOf s then s.drop pat.length
  else
    match s with
    | [] => []
    | c :: rest => c :: replaceFirst rest pat

/-! ## Backtracking matcher combinators

These mirror the JavaScript regex engine's exploration order for the
constructs appearing in the four directive patterns. A matcher is given
the rest of the input plus a continuation; the first alternative (in
engine order) for which the continuation succeeds wins. -/

/-- Match a literal case-insensitively (the `i` flag applies to the
whole pattern); returns the remaining input. -/
def stripLitCI : List Char → List Char → Option (List Char)
  | [], s => some s
  | _ :: _, [] => none
  | c :: lit, d :: s => if charEqCI c d then stripLitCI lit s else none

/-- Greedy `\s*` with backtracking: consume as much whitespace as
possible first, giving characters back one at a time if the
continuation fails. -/
def wsStarGreedy {α : Type} : List Char → (List Char → Option α) → Option α
  | [], k => k []
  | c :: rest, k =>
    if isJsWs c then (wsStarGreedy rest k) <|> k (c :: rest)
    else k (c :: rest)

/-- Lazy `X+?` over a character class: consume one character, try the
continuation, and extend only on failure. The continuation receives
the consumed characters and the remaining input. -/
def lazyPlus {α : Type} (p : Char → Bool) :
    List Char → (List Char → List Char → Option α) → Option α
  | [], _ => none
  | c :: rest, k =>
    if p c then (k [c] rest) <|> lazyPlus p rest (fun cs r => k (c :: cs) r)
    else none

/-! ## The four directive patterns

Each `match...At` function attempts its pattern anchored at the start
of the input and returns `(group1, group2?, rest)` on success. -/

/-- `/\[ACTION:\s*([^\]|]+?)(?:\s*\|(.+?))?\]/i` anchored at the start. -/
def matchActionAt (s : List Char) : Option (List Char × Option (List Char) × List Char) :=
  (stripLitCI "[ACTION:".data s).bind fun s1 =>
  wsStarGreedy s1 fun s2 =>
  lazyPlus (fun c => !(c == ']') && !(c == '|')) s2 fun t s3 =>
    (wsStarGreedy s3 fun s4 =>
      match s4 with
      | '|' :: s5 =>
        lazyPlus (fun c => !(c == '\n')) s5 fun g2 s6 =>
          match s6 with
          | ']' :: s7 => some (t, some g2, s7)
          | _ => none
      | _ => none)
    <|>
    (match s3 with
     | ']' :: s7 => some (t, none, s7)
     | _ => none)

/-- `/\[REMEMBER:\s*(.+?)\]/i` anchored at the start. -/
def matchRememberAt (s : List Char) : Option (List Char × Option (List Char) × List Char) :=
  (stripLitCI "[REMEMBER:".data s).bind fun s1 =>
  wsStarGreedy s1 fun s2 =>
  lazyPlus (fun c => !(c == '\n')) s2 fun t s3 =>
    match s3 with
    | ']' :: s7 => some (t, none, s7)
    | _ => none

/-- `/\[GOAL:\s*(.+?)(?:\s*\|\s*DEADLINE:\s*(.+?))?\]/i` anchored at the start. -/
def matchGoalAt (s : List Char) : Option (List Char × Option (List Char) × List Char) :=
  (stripLitCI "[GOAL:".data s).bind fun s1 =>
  wsStarGreedy s1 fun s2 =>
  lazyPlus (fun c => !(c == '\n')) s2 fun t s3 =>
    (wsStarGreedy s3 fun s4 =>
      match s4 with
      | '|' :: s5 =>
        wsStarGreedy s5 fun s6 =>
        (stripLitCI "DEADLINE:".data s6).bind fun s7 =>
        wsStarGreedy s7 fun s8 =>
        lazyPlus (fun c => !(c == '\n')) s8 fun g2 s9 =>
          match s9 with
          | ']' :: s10 => some (t, some g2, s10)
          | _ => none
      | _ => none)
    <|>
    (match s3 with
     | ']' :: s7 => some (t, none, s7)
     | _ => none)

/-- `/\[DONE:\s*(.+?)\]/i` anchored at the start. -/
def matchDoneAt (s : List Char) : Option (List Char × Option (List Char) × List Char) :=
  (stripLitCI "[DONE:".data s).bind fun s1 =>
  wsStarGreedy s1 fun s2 =>
  lazyPlus (fun c => !(c == '\n')) s2 fun t s3 =>
    match s3 with
    | ']' :: s7 => some (t, none, s7)
    | _ => none

/-! ## `matchAll` scanning (`g` flag)

Scan left to right; after a match, scanning resumes right after the
matched substring. `fuel` is a structural-termination device: every
step consumes at least one input character (every match of the four
patterns is non-empty), so `length + 1` steps always suffice. -/

/-- One `matchAll` result: `(match0, group1, group2?)`. -/
abbrev TagMatch := List Char × List Char × Option (List Char)

def scanTagsAux (matchAt : List Char → Option (List Char × Option (List Char) × List Char)) :
    Nat → List Char → List TagMatch
  | 0, _ => []
  | _ + 1, [] => []
  | fuel + 1, s@(_ :: rest) =>
    match matchAt s with
    | some (g1, g2, r) =>
      (s.take (s.length - r.length), g1, g2) :: scanTagsAux matchAt fuel r
    | none => scanTagsAux matchAt fuel rest

/-- All matches of the pattern in the input, left to right. -/
def scanTags (matchAt : List Char → Option (List Char × Option (List Char) × List Char))
    (s : List Char) : List TagMatch :=
  scanTagsAux matchAt (s.length + 1) s

/-! ## extractActions (actions.ts) -/

/-- A parsed `[ACTION: ...]` directive (`ParsedAction` in actions.ts).
`fields` is an association list in JavaScript object insertion order:
assigning an existing key updates it in place, a new key is appended. -/
structure ParsedAction where
  type : String
  fields : List (String × String)
deriving DecidableEq

/-- JavaScript object assignment `fields[key] = value`. -/
def insertField (fields : List (String × String)) (k v : String) : List (String × String) :=
  match fields with
  | [] => [(k, v)]
  | (k0, v0) :: rest =>
    if k0 == k then (k0, v) :: rest else (k0, v0) :: insertField rest k v

/-- JavaScript `s.split("|")` (keeps empty segments). -/
def splitPipe : List Char → List (List Char)
  | [] => [[]]
  | '|' :: rest => [] :: splitPipe rest
  | c :: rest =>
    match splitPipe rest with
    | [] => [[c]]
    | p :: ps => (c :: p) :: ps

/-- `pair.indexOf(":")` followed by the two slices: splits at the first
colon, if any. -/
def firstColonSplit : List Char → Option (List Char × List Char)
  | [] => none
  | ':' :: rest => some ([], rest)
  | c :: rest => (firstColonSplit rest).map (fun p => (c :: p.1, p.2))

/-- The key/value loop of `extractActions`: split `match[2]` on `|`,
split each segment at its first colon, lowercase+trim the key, trim the
value. Segments without a colon are skipped. -/
def parseFields (g2 : List Char) : List (String × String) :=
  (splitPipe g2).foldl
    (fun fs pair =>
      match firstColonSplit pair with
      | some (k, v) =>
        insertField fs (jsToLower (jsTrim (String.mk k))) (jsTrim (String.mk v))
      | none => fs)
    []

/-- One scanned match turned into a `ParsedAction`
(`type = match[1].trim().toLowerCase()`, fields from `match[2]`). -/
def toParsedAction (m : TagMatch) : ParsedAction :=
  { type := jsToLower (jsTrim (String.mk m.2.1)),
    fields := match m.2.2 with
      | some g2 => parseFields g2
      | none => [] }

/-- `extractActions(response)` from actions.ts: all `[ACTION: ...]`
matches are parsed; each match's text is removed from the running
cleaned string (`cleaned.replace(match[0], "")`, i.e. first
occurrence); the cleaned string is trimmed at the end. -/
def extractActions (response : String) : String × List ParsedAction :=
  let ms := scanTags matchActionAt response.data
  let actions := ms.map toParsedAction
  let cleaned := ms.foldl (fun c m => replaceFirst c m.1) response.data
  (jsTrim (String.mk cleaned), actions)

/-! ## Action queue (actions.ts) -/

/-- A row of the Supabase `actions` table (`PendingAction` in actions.ts). -/
structure ActionRow where
  id : String
  type : String
  description : String
  payload : List (String × String)
  status : String
  created_at : String
  executed_at : Option String
deriving DecidableEq

/-- `fields.find` on a JS object modelled as an association list. -/
def getField (fields : List (String × String)) (k : String) : Option String :=
  (fields.find? (fun p => p.1 == k)).map (fun p => p.2)

/-- JavaScript truthiness for `f.key`: missing key and empty string are
both falsy. -/
def truthyField (fields : List (String × String)) (k : String) : Option String :=
  match getField fields k with
  | some v => if v == "" then none else some v
  | none => none

/-- `f.key || "?"`. -/
def fieldOrQ (fields : List (String × String)) (k : String) : String :=
  match truthyField fields k with
  | some v => v
  | none => "?"

/-- `formatActionDescription` from actions.ts. -/
def formatActionDescription (action : ParsedAction) : String :=
  let f := action.fields
  match action.type with
  | "send_email" =>
    "Send email to " ++ fieldOrQ f "to" ++
      (match truthyField f "subject" with
       | some s => ": \"" ++ s ++ "\""
       | none => "")
  | "create_task" =>
    "Create task: \"" ++ fieldOrQ f "title" ++ "\"" ++
      (match truthyField f "due" with
       | some d => " (due " ++ d ++ ")"
       | none => "")
  | "update_calendar" =>
    "Update calendar: \"" ++ fieldOrQ f "event" ++ "\"" ++
      (match truthyField f "time" with
       | some t => " at " ++ t
       | none => "")
  | _ =>
    action.type ++ ": " ++
      String.intercalate ", " (f.map (fun p => p.1 ++ "=" ++ p.2))

/-- Interpolating a missing object property in a JS template literal
prints `undefined`; `executeAction` interpolates `payload.<key>`
without a default. -/
def payloadStr (payload : List (String × String)) (k : String) : String :=
  match getField payload k with
  | some v => v
  | none => "undefined"

/-- `executeAction` from actions.ts (the stub executor: it only logs
and returns a templated confirmation string; it never throws). -/
def executeAction (action : ActionRow) : String :=
  match action.type with
  | "send_email" =>
    "Email action logged: to " ++ payloadStr action.payload "to" ++
      ", subject \"" ++ payloadStr action.payload "subject" ++
      "\". (Integration pending — connect Gmail in Feature 3)"
  | "create_task" =>
    "Task action logged: \"" ++ payloadStr action.payload "title" ++
      "\". (Integration pending — connect Notion in Feature 3)"
  | "update_calendar" =>
    "Calendar action logged: \"" ++ payloadStr action.payload "event" ++
      "\". (Integration pending — connect Google Calendar in Feature 3)"
  | _ =>
    "Action \"" ++ action.type ++ "\" logged. (No handler configured yet)"

/-- `getAction`: `select("*").eq("id", id).single()` — `single()`
errors (treated as not-found) unless exactly one row matches. -/
def getActionRow (store : List ActionRow) (actionId : String) : Option ActionRow :=
  match store.filter (fun a => a.id == actionId) with
  | [a] => some a
  | _ => none

/-- `update({status}).eq("id", id)`: updates every row whose id matches. -/
def updateStatusRows (store : List ActionRow) (actionId status : String) : List ActionRow :=
  store.map (fun a => if a.id == actionId then { a with status := status } else a)

/-- `update({status, executed_at}).eq("id", id)`. -/
def updateExecutedRows (store : List ActionRow) (actionId status now : String) :
    List ActionRow :=
  store.map (fun a =>
    if a.id == actionId then { a with status := status, executed_at := some now } else a)

/-- The `{success, description}` result of approve/deny. -/
structure ActionResult where
  success : Bool
  description : String
deriving DecidableEq

/-- `approveAction` from actions.ts. `dbAvailable` models
`getSupabase()` returning null; `approveWriteOk` models the checked
`update({status: "approved"})` write; `executedWriteOk` models the
`update({status: "executed", executed_at})` write, whose error the
source ignores (a failed Supabase update returns an error object and
leaves the rows unchanged — it does not throw). `now` models
`new Date().toISOString()`. -/
def approveAction (dbAvailable : Bool) (store : List ActionRow)
    (actionId now : String) (approveWriteOk executedWriteOk : Bool) :
    ActionResult × List ActionRow :=
  if dbAvailable = false then (⟨false, "Database unavailable"⟩, store)
  else
    match getActionRow store actionId with
    | none => (⟨false, "Action not found"⟩, store)
    | some action =>
      if action.status != "pending" then
        (⟨false, "Action already " ++ action.status⟩, store)
      else if approveWriteOk = false then
        (⟨false, "Failed to approve"⟩, store)
      else
        let store1 := updateStatusRows store actionId "approved"
        let result := executeAction action
        let store2 :=
          if executedWriteOk then updateExecutedRows store1 actionId "executed" now
          else store1
        (⟨true, result⟩, store2)

/-- `denyAction` from actions.ts. `denyWriteOk` models the checked
`update({status: "denied"})` write. -/
def denyAction (dbAvailable : Bool) (store : List ActionRow)
    (actionId : String) (denyWriteOk : Bool) :
    ActionResult × List ActionRow :=
  if dbAvailable = false then (⟨false, "Database unavailable"⟩, store)
  else
    match getActionRow store actionId with
    | none => (⟨false, "Action not found"⟩, store)
    | some action =>
      if action.status != "pending" then
        (⟨false, "Action already " ++ action.status⟩, store)
      else if denyWriteOk = false then
        (⟨false, "Failed to deny"⟩, store)
      else
        (⟨true, action.description⟩, updateStatusRows store actionId "denied")

/-! ## Memory persistence (memory.ts)

The Supabase `memory` table is modelled as a list of rows in insertion
order (oldest first); an insert appends, with the generated id taken as
the current length (fresh along any append-only history). A `select`
without an `order` clause returns rows in table order. -/

/-- A row of the `memory` table. -/
structure MemRow where
  id : Nat
  type : String
  content : String
  deadline : Option String
  completed_at : Option String
deriving DecidableEq

/-- SQL `LIKE` pattern matching (`%` any sequence, `_` any single
character), on lower-cased characters for `ILIKE`. -/
def likeMatchAux : Nat → List Char → List Char → Bool
  | 0, _, _ => false
  | _ + 1, [], t => t.isEmpty
  | fuel + 1, '%' :: p, t =>
    likeMatchAux fuel p t ||
      (match t with
       | [] => false
       | _ :: t2 => likeMatchAux fuel ('%' :: p) t2)
  | fuel + 1, '_' :: p, t =>
    (match t with
     | [] => false
     | _ :: t2 => likeMatchAux fuel p t2)
  | fuel + 1, c :: p, t =>
    (match t with
     | [] => false
     | d :: t2 => c == d && likeMatchAux fuel p t2)

/-- `content ILIKE pattern`: case-insensitive `LIKE`. The fuel
`p.length + t.length + 1` suffices since every step shrinks
`pattern + text`. -/
def ilike (content pattern : String) : Bool :=
  likeMatchAux (pattern.length + content.length + 1)
    (pattern.data.map asciiLower) (content.data.map asciiLower)

/-- `saveFact` from memory.ts: inserts `{type: "fact", content}`. -/
def saveFact (store : List MemRow) (content : String) : List MemRow :=
  store ++ [{ id := store.length, type := "fact", content := content,
              deadline := none, completed_at := none }]

/-- `saveGoal` from memory.ts: inserts `{type: "goal", content}` plus
the deadline when one was parsed. -/
def saveGoal (store : List MemRow) (content : String) (deadline : Option String) :
    List MemRow :=
  store ++ [{ id := store.length, type := "goal", content := content,
              deadline := deadline, completed_at := none }]

/-- The row predicate of `completeGoal`'s query:
`.eq("type", "goal").ilike("content", `%${searchText}%`)`. -/
def goalMatches (searchText : String) (r : MemRow) : Bool :=
  r.type == "goal" && ilike r.content ("%" ++ searchText ++ "%")

/-- `completeGoal` from memory.ts: the select uses `limit(1)` and no
`order` clause, so it yields the first matching row in table order;
if none matches the function is a silent no-op, otherwise the row is
updated to `{type: "completed_goal", completed_at: now}` by id. -/
def completeGoal (store : List MemRow) (searchText now : String) : List MemRow :=
  match store.find? (goalMatches searchText) with
  | none => store
  | some r =>
    store.map (fun x =>
      if x.id == r.id then { x with type := "completed_goal", completed_at := some now }
      else x)

/-- `processIntents` from memory.ts. All three regexes run `matchAll`
over the original response while the removals accumulate on the
running `clean` string; each `REMEMBER` match stores a fact, each
`GOAL` match stores a goal (with optional trimmed deadline), each
`DONE` match runs `completeGoal` on the trimmed search text. Returns
the updated memory store and the trimmed cleaned text. -/
def processIntents (store : List MemRow) (now : String) (response : String) :
    List MemRow × String :=
  let rem := scanTags matchRememberAt response.data
  let store1 := rem.foldl (fun st m => saveFact st (jsTrim (String.mk m.2.1))) store
  let clean1 := rem.foldl (fun c m => replaceFirst c m.1) response.data
  let gl := scanTags matchGoalAt response.data
  let store2 := gl.foldl
    (fun st m => saveGoal st (jsTrim (String.mk m.2.1))
      (m.2.2.map (fun d => jsTrim (String.mk d)))) store1
  let clean2 := gl.foldl (fun c m => replaceFirst c m.1) clean1
  let dn := scanTags matchDoneAt response.data
  let store3 := dn.foldl (fun st m => completeGoal st (jsTrim (String.mk m.2.1)) now) store2
  let clean3 := dn.foldl (fun c m => replaceFirst c m.1) clean2
  (store3, jsTrim (String.mk clean3))

/-- The text-cleaning pipeline of `processResponse` in relay.ts:
`extractActions` strips the action tags, then `processIntents` strips
the memory-intent tags (its store effects do not influence the text). -/
def processResponseClean (store : List MemRow) (now : String) (response : String) : String :=
  (processIntents store now (extractActions response).1).2

/-! ## Fallback provider chain (fallback.ts, relay.ts `callClaude`)

A provider call is modelled by an `Option String` environment field:
`some text` is a successful resolution, `none` a thrown error. The
returned triple carries the response text, the `lastProvider` tag
after the call, and the ordered list of providers actually invoked. -/

/-- The provider tag (`ProviderResult["provider"]`). -/
inductive Provider
  | claude
  | openrouter
  | ollama
  | error
deriving DecidableEq

/-- The per-agent `model_config` routing target (`ModelConfig.provider`). -/
inductive ConfiguredProvider
  | claude
  | openrouter
  | ollama
deriving DecidableEq

/-- Static configuration and per-provider behaviour of one `callClaude`
invocation. -/
structure ProviderEnv where
  fallbackEnabled : Bool
  openRouterAvailable : Bool
  openRouterResult : Option String
  ollamaConfigured : Bool
  ollamaResult : Option String
  claudeCliResult : Option String
deriving DecidableEq

/-- `callOpenRouter`: throws immediately when no API key is configured,
otherwise behaves as the environment says. -/
def callOpenRouterM (env : ProviderEnv) : Option String :=
  if env.openRouterAvailable then env.openRouterResult else none

/-- `callOllama`: an HTTP call to the configured URL. -/
def callOllamaM (env : ProviderEnv) : Option String :=
  env.ollamaResult

/-- `callClaudeCLI`: the Claude CLI subprocess. -/
def callClaudeCLIM (env : ProviderEnv) : Option String :=
  env.claudeCliResult

/-- The terminal all-providers-failed message of `tryFallbacks`. -/
def allFailedText (env : ProviderEnv) : String :=
  let available :=
    (if env.openRouterAvailable then ["OpenRouter"] else []) ++
    (if env.ollamaConfigured then ["Ollama"] else [])
  if available.isEmpty then
    "Claude is temporarily unavailable and no fallback providers are configured. Add OPENROUTER_API_KEY or set up Ollama for resilience."
  else
    "All AI providers are currently unavailable (tried: Claude, " ++
      String.intercalate ", " available ++ "). Please try again later."

/-- The Ollama leg of `tryFallbacks` (entered after the OpenRouter leg,
carrying the providers already attempted). -/
def tryFallbacksOllama (env : ProviderEnv) (attempted : List Provider) :
    (String × Provider) × List Provider :=
  if env.ollamaConfigured then
    match callOllamaM env with
    | some t => ((t, Provider.ollama), attempted ++ [Provider.ollama])
    | none => ((allFailedText env, Provider.error), attempted ++ [Provider.ollama])
  else ((allFailedText env, Provider.error), attempted)

/-- `tryFallbacks` from fallback.ts: OpenRouter (when an API key is
configured) and then Ollama (when a URL is configured), returning the
first success or the terminal error result. -/
def tryFallbacks (env : ProviderEnv) : (String × Provider) × List Provider :=
  if env.fallbackEnabled = false then
    (("Claude is temporarily unavailable. Please try again in a moment.",
      Provider.error), [])
  else if env.openRouterAvailable then
    match callOpenRouterM env with
    | some t => ((t, Provider.openrouter), [Provider.openrouter])
    | none => tryFallbacksOllama env [Provider.openrouter]
  else tryFallbacksOllama env []

/-- The tail of `callClaude` in relay.ts, from the Claude CLI attempt
onwards. `lastProvider0` is the value of the module-level
`lastProvider` before the call (it is left unchanged on the
fallback-disabled path, which returns without assigning it). -/
def callClaudeStep (env : ProviderEnv) (lastProvider0 : Provider)
    (attempted : List Provider) : String × Provider × List Provider :=
  match callClaudeCLIM env with
  | some t => (t, Provider.claude, attempted ++ [Provider.claude])
  | none =>
    if env.fallbackEnabled = false then
      ("Error: Claude is temporarily unavailable. No fallback providers configured.",
       lastProvider0, attempted ++ [Provider.claude])
    else
      let fb := tryFallbacks env
      (fb.1.1, fb.1.2, attempted ++ [Provider.claude] ++ fb.2)

/-- `callClaude` from relay.ts: route to the agent's configured
provider first (OpenRouter or Ollama fall back to the Claude CLI on
failure), then the Claude CLI, then `tryFallbacks` when enabled. -/
def callClaude (env : ProviderEnv) (cfg : ConfiguredProvider)
    (lastProvider0 : Provider) : String × Provider × List Provider :=
  match cfg with
  | ConfiguredProvider.openrouter =>
    (match callOpenRouterM env with
     | some t => (t, Provider.openrouter, [Provider.openrouter])
     | none => callClaudeStep env lastProvider0 [Provider.openrouter])
  | ConfiguredProvider.ollama =>
    (match callOllamaM env with
     | some t => (t, Provider.ollama, [Provider.ollama])
     | none => callClaudeStep env lastProvider0 [Provider.ollama])
  | ConfiguredProvider.claude => callClaudeStep env lastProvider0 []

/-! ## Board meeting orchestrator (src/agents/orchestrator.ts)

The model-calling function is `String → Except String String`
(`.error` = the promise rejected). `Promise.all` over
`specialists.map(...)` preserves order, so the parallel fan-out is a
`List.map`. Wall-clock durations are not modelled. -/

/-- `AgentConfig` from src/agents/registry.ts (runtime `topicId`
binding omitted — not used by the orchestrator). -/
structure AgentConfig where
  name : String
  slug : String
  systemPrompt : String
deriving DecidableEq

/-- `AgentResponse` from orchestrator.ts (without `durationMs`). -/
structure AgentResponse where
  agent : AgentConfig
  response : String
  error : Option String
deriving DecidableEq

/-- `BoardMeetingResult` (without `totalDurationMs`). -/
structure BoardMeetingResult where
  question : String
  responses : List AgentResponse
  synthesis : String
deriving DecidableEq

/-- JavaScript `l.join(sep)`. -/
def joinSep (sep : String) : List String → String
  | [] => ""
  | [s] => s
  | s :: rest => s ++ sep ++ joinSep sep rest

/-- `profileContext ? `\nUser profile:\n${profileContext}` : ""`
(undefined and the empty string are both falsy). -/
def profilePart (profileContext : Option String) : String :=
  match profileContext with
  | some p => if p == "" then "" else "\nUser profile:\n" ++ p
  | none => ""

/-- The per-specialist prompt assembled in `callAgentForMeeting`. -/
def meetingPrompt (agent : AgentConfig) (question : String)
    (profileContext : Option String) : String :=
  joinSep "\n"
    [agent.systemPrompt,
     profilePart profileContext,
     "\nYou are participating in a board meeting. Multiple specialist agents are being consulted on the same question. Provide your perspective based on your specialty.",
     "\nKeep your response focused and under 300 words.",
     "\nQuestion: " ++ question]

/-- `callAgentForMeeting`: a thrown error is caught and replaced by the
placeholder response with `error` set to the error message. -/
def callAgentForMeeting (agent : AgentConfig) (question : String)
    (callModel : String → Except String String)
    (profileContext : Option String) : AgentResponse :=
  match callModel (meetingPrompt agent question profileContext) with
  | Except.ok r => { agent := agent, response := r, error := none }
  | Except.error e =>
    { agent := agent,
      response := "[" ++ agent.name ++ " agent was unable to respond]",
      error := some e }

/-- The synthesis prompt assembled in `synthesizeResponses`; it embeds
every specialist's name and response (placeholders included). -/
def synthesisPrompt (general : AgentConfig) (question : String)
    (responses : List AgentResponse) : String :=
  let agentSummaries :=
    joinSep "\n\n" (responses.map (fun r => "### " ++ r.agent.name ++ "\n" ++ r.response))
  joinSep "\n"
    [general.systemPrompt,
     "\nYou are synthesizing a board meeting. Multiple specialist agents have weighed in on the same question. Your job:",
     "1. Identify points of consensus",
     "2. Highlight key disagreements or different perspectives",
     "3. Provide a clear, actionable recommendation",
     "4. Keep the synthesis concise (under 250 words)",
     "\nOriginal question: " ++ question,
     "\n--- Agent Responses ---\n",
     agentSummaries,
     "\n--- End of Responses ---",
     "\nSynthesize the above into a clear summary with recommendation."]

/-- `synthesizeResponses`: a failing synthesis call degrades to a fixed
fallback string. -/
def synthesizeResponses (general : AgentConfig) (question : String)
    (responses : List AgentResponse)
    (callModel : String → Except String String) : String :=
  match callModel (synthesisPrompt general question responses) with
  | Except.ok t => t
  | Except.error _ =>
    "Could not synthesize board meeting responses. See individual agent responses above."

/-- `runBoardMeeting` from orchestrator.ts; `specialists` models
`getSpecialistAgents()` and `general` models `getGeneralAgent()`. -/
def runBoardMeeting (specialists : List AgentConfig) (general : AgentConfig)
    (question : String) (callModel : String → Except String String)
    (profileContext : Option String) : BoardMeetingResult :=
  let responses :=
    specialists.map (fun a => callAgentForMeeting a question callModel profileContext)
  { question := question,
    responses := responses,
    synthesis := synthesizeResponses general question responses callModel }

/-! ## Session store (relay.ts) -/

/-- `AgentSession` from relay.ts. -/
structure AgentSession where
  sessionId : Option String
  lastActivity : String
deriving DecidableEq

/-- `SessionStore` from relay.ts: per-agent sessions plus the legacy
single DM-mode session. `agents` is a JS object modelled as an
association list in insertion order. -/
structure SessionStore where
  agents : List (String × AgentSession)
  sessionId : Option String
  lastActivity : String
deriving DecidableEq

/-- `sessions.agents[key]` (JS object lookup on an association list). -/
def lookupAgent (agents : List (String × AgentSession)) (k : String) :
    Option AgentSession :=
  match agents with
  | [] => none
  | (k0, v) :: rest => if k0 = k then some v else lookupAgent rest k

/-- JS object upsert `agents[key] = v`. -/
def upsertAgent (agents : List (String × AgentSession)) (k : String)
    (v : AgentSession) : List (String × AgentSession) :=
  match agents with
  | [] => [(k, v)]
  | (k0, v0) :: rest =>
    if k0 = k then (k0, v) :: rest else (k0, v0) :: upsertAgent rest k v

/-- `agentSlug || "general"`: the empty string is falsy and also maps
to the default key. -/
def keyOf (agentSlug : Option String) : String :=
  match agentSlug with
  | none => "general"
  | some s => if s == "" then "general" else s

/-- `getAgentSessionId` from relay.ts:
`sessions.agents[key]?.sessionId ?? sessions.sessionId` (both a missing
entry and a null per-agent session id fall back to the legacy id). -/
def getAgentSessionId (st : SessionStore) (agentSlug : Option String) :
    Option String :=
  match lookupAgent st.agents (keyOf agentSlug) with
  | some a =>
    (match a.sessionId with
     | some sid => some sid
     | none => st.sessionId)
  | none => st.sessionId

/-- `setAgentSessionId` from relay.ts: upsert the per-agent entry, and
mirror into the legacy `sessionId`/`lastActivity` pair exactly when
`!agentSlug || agentSlug === "general"`. -/
def setAgentSessionId (st : SessionStore) (agentSlug : Option String)
    (sid now : String) : SessionStore :=
  let key := keyOf agentSlug
  let agents1 := upsertAgent st.agents key { sessionId := some sid, lastActivity := now }
  if agentSlug == none || agentSlug == some "" || agentSlug == some "general" then
    { agents := agents1, sessionId := some sid, lastActivity := now }
  else
    { st with agents := agents1 }

/-! ## Claim C2 — Scenario A -/

/-- The Scenario A input text. -/
def scenarioAInput : String :=
  "Sure! [ACTION: create_task | TITLE: Buy milk | DUE: tomorrow] Done."

/-- The Scenario A parsed directive. -/
def scenarioAAction : ParsedAction :=
  { type := "create_task", fields := [("title", "Buy milk"), ("due", "tomorrow")] }

/-- C2 (counterexample): on the Scenario A input the cleaned text is
not `"Sure! Done."` — removing the tag leaves both surrounding spaces
and `trim` only strips the ends, so the cleaned text keeps two
consecutive spaces. -/
theorem c2_scenarioA_counterexample :
    (extractActions scenarioAInput).1 ≠ "Sure! Done." := by
  decide

/-- C2 (amended): on the Scenario A input, `extractActions` returns
cleaned text `"Sure!  Done."` (two spaces) and exactly the one parsed
action `create_task {title: "Buy milk", due: "tomorrow"}`, and the
per-type formatter used by `queueAction` produces
`Create task: "Buy milk" (due tomorrow)`. -/
theorem c2_scenarioA_amended :
    extractActions scenarioAInput = ("Sure!  Done.", [scenarioAAction])
    ∧ formatActionDescription scenarioAAction
      = "Create task: \"Buy milk\" (due tomorrow)" := by
  constructor
  · decide
  · decide

/-! ## Claim C7 — fallback disabled message -/

/-- C7: if the Claude CLI call throws and fallback is disabled,
`callClaude` resolves (the model is a total function — nothing is
thrown to the caller) to exactly the fixed error string. -/
theorem c7_no_fallback_fixed_message (env : ProviderEnv) (lp : Provider)
    (hcli : env.claudeCliResult = none) (hfb : env.fallbackEnabled = false) :
    (callClaude env ConfiguredProvider.claude lp).1 =
      "Error: Claude is temporarily unavailable. No fallback providers configured." := by
  simp [callClaude, callClaudeStep, callClaudeCLIM, hcli, hfb]

/-- C7 witness: a concrete environment whose CLI call throws with
fallback disabled. -/
theorem c7_no_fallback_fixed_message_witness :
    (callClaude ⟨false, false, none, false, none, none⟩
        ConfiguredProvider.claude Provider.claude).1 =
      "Error: Claude is temporarily unavailable. No fallback providers configured." :=
  c7_no_fallback_fixed_message ⟨false, false, none, false, none, none⟩
    Provider.claude rfl rfl

/-! ## Claim C3 — fallback ordering -/

/-- An environment in which every provider is configured and every
provider call fails. -/
def envAllFail : ProviderEnv :=
  { fallbackEnabled := true, openRouterAvailable := true, openRouterResult := none,
    ollamaConfigured := true, ollamaResult := none, claudeCliResult := none }

/-- C3 (counterexample): with the configured provider `openrouter` and
every provider failing, the attempted sequence is
`[openrouter, claude, openrouter, ollama]` — the cloud gateway is
attempted again inside `tryFallbacks`, not skipped as the claim
states. -/
theorem c3_fallback_order_counterexample :
    (callClaude envAllFail ConfiguredProvider.openrouter Provider.claude).2.2 =
      [Provider.openrouter, Provider.claude, Provider.openrouter, Provider.ollama]
    ∧ (callClaude envAllFail ConfiguredProvider.openrouter Provider.claude).2.2 ≠
      [Provider.openrouter, Provider.claude, Provider.ollama] := by
  decide

/-- C3 (amended): with a non-default configured provider (openrouter),
fallback enabled and both fallback providers configured, the attempted
order is configured provider → Claude CLI → cloud gateway *again*
(`tryFallbacks` does not skip it) → local server, and the returned
provider tag names the first attempt that succeeded. -/
theorem c3_fallback_order_amended (env : ProviderEnv) (lp : Provider)
    (hfb : env.fallbackEnabled = true) (hor : env.openRouterAvailable = true)
    (holl : env.ollamaConfigured = true) :
    ((env.openRouterResult = none ∧ env.claudeCliResult = none ∧ env.ollamaResult = none) →
      (callClaude env ConfiguredProvider.openrouter lp).2.2 =
        [Provider.openrouter, Provider.claude, Provider.openrouter, Provider.ollama]
      ∧ (callClaude env ConfiguredProvider.openrouter lp).2.1 = Provider.error)
    ∧ (∀ t, env.openRouterResult = some t →
        callClaude env ConfiguredProvider.openrouter lp =
          (t, Provider.openrouter, [Provider.openrouter]))
    ∧ (∀ t, env.openRouterResult = none → env.claudeCliResult = some t →
        callClaude env ConfiguredProvider.openrouter lp =
          (t, Provider.claude, [Provider.openrouter, Provider.claude]))
    ∧ (∀ t, env.openRouterResult = none → env.claudeCliResult = none →
        env.ollamaResult = some t →
        callClaude env ConfiguredProvider.openrouter lp =
          (t, Provider.ollama,
           [Provider.openrouter, Provider.claude, Provider.openrouter, Provider.ollama])) := by
  refine ⟨?_, ?_, ?_, ?_⟩
  · rintro ⟨h1, h2, h3⟩
    constructor <;>
      simp [callClaude, callClaudeStep, tryFallbacks, tryFallbacksOllama,
        callOpenRouterM, callOllamaM, callClaudeCLIM, h1, h2, h3, hfb, hor, holl]
  · intro t h1
    simp [callClaude, callOpenRouterM, h1, hor]
  · intro t h1 h2
    simp [callClaude, callClaudeStep, callOpenRouterM, callClaudeCLIM, h1, h2, hor]
  · intro t h1 h2 h3
    simp [callClaude, callClaudeStep, tryFallbacks, tryFallbacksOllama,
      callOpenRouterM, callOllamaM, callClaudeCLIM, h1, h2, h3, hfb, hor, holl]

/-- C3 witness: the all-fail environment instantiates the amended
ordering statement. -/
theorem c3_fallback_order_amended_witness :
    (callClaude envAllFail ConfiguredProvider.openrouter Provider.claude).2.2 =
      [Provider.openrouter, Provider.claude, Provider.openrouter, Provider.ollama]
    ∧ (callClaude envAllFail ConfiguredProvider.openrouter Provider.claude).2.1 =
      Provider.error :=
  (c3_fallback_order_amended envAllFail Provider.claude rfl rfl rfl).1 ⟨rfl, rfl, rfl⟩

/-! ## Claims C9/C10 — session continuity scoping -/

/-- Looking a key up after a JS-object upsert: the upserted key reads
the new value, every other key is untouched. -/
theorem lookupAgent_upsertAgent (agents : List (String × AgentSession))
    (k k2 : String) (v : AgentSession) :
    lookupAgent (upsertAgent agents k v) k2 =
      if k2 = k then some v else lookupAgent agents k2 := by
  induction agents with
  | nil =>
    by_cases h : k2 = k
    · subst h; simp [upsertAgent, lookupAgent]
    · simp [upsertAgent, lookupAgent, h, Ne.symm h]
  | cons p rest ih =>
    obtain ⟨k0, v0⟩ := p
    by_cases h0 : k0 = k
    · subst h0
      by_cases h2 : k2 = k0
      · subst h2; simp [upsertAgent, lookupAgent]
      · simp [upsertAgent, lookupAgent, h2, Ne.symm h2]
    · by_cases h2 : k0 = k2
      · subst h2
        simp [upsertAgent, lookupAgent, h0, Ne.symm h0]
      · simp [upsertAgent, lookupAgent, h0, h2, Ne.symm h2, ih]

/-- C9: writing a session id for slug `"research"` leaves the session
id readable for `"finance"` unchanged, and the legacy top-level
`sessionId`/`lastActivity` pair is mirrored exactly when the key being
updated is the default `"general"` one (the slug is `"general"`,
`undefined`, or the empty string — both falsy values designate the
default key) and never for any other slug. -/
theorem c9_session_scoping (st : SessionStore) (slug : Option String)
    (sid now : String) :
    getAgentSessionId (setAgentSessionId st (some "research") sid now) (some "finance")
      = getAgentSessionId st (some "finance")
    ∧ (setAgentSessionId st slug sid now).sessionId
      = (if keyOf slug = "general" then some sid else st.sessionId)
    ∧ (setAgentSessionId st slug sid now).lastActivity
      = (if keyOf slug = "general" then now else st.lastActivity) := by
  refine ⟨?_, ?_, ?_⟩
  · simp [getAgentSessionId, setAgentSessionId, keyOf, lookupAgent_upsertAgent]
  · rcases slug with _ | s
    · simp [setAgentSessionId, keyOf]
    · by_cases he : s = ""
      · subst he; simp [setAgentSessionId, keyOf]
      · by_cases hg : s = "general"
        · subst hg; simp [setAgentSessionId, keyOf]
        · simp [setAgentSessionId, keyOf, he, hg]
  · rcases slug with _ | s
    · simp [setAgentSessionId, keyOf]
    · by_cases he : s = ""
      · subst he; simp [setAgentSessionId, keyOf]
      · by_cases hg : s = "general"
        · subst hg; simp [setAgentSessionId, keyOf]
        · simp [setAgentSessionId, keyOf, he, hg]

/-- C10: when the store has no per-agent entry for a slug's key, the
read falls back to the legacy top-level session id (for every slug,
not only the default), and a write to the default key is subsequently
readable through any slug that has no entry of its own. -/
theorem c10_legacy_fallback_read (st : SessionStore) (slug : Option String)
    (s sid now : String) :
    (lookupAgent st.agents (keyOf slug) = none →
      getAgentSessionId st slug = st.sessionId)
    ∧ (s ≠ "general" → s ≠ "" → lookupAgent st.agents s = none →
        getAgentSessionId (setAgentSessionId st none sid now) (some s) = some sid) := by
  constructor
  · intro h
    simp [getAgentSessionId, h]
  · intro hg he h
    simp [getAgentSessionId, setAgentSessionId, keyOf, lookupAgent_upsertAgent,
      he, hg, h]

/-- C10 witness: an empty store; a write for the default slug is read
back through the unrelated slug `"finance"`. -/
theorem c10_legacy_fallback_read_witness :
    (getAgentSessionId ⟨[], none, "t0"⟩ (some "research") = none)
    ∧ getAgentSessionId (setAgentSessionId ⟨[], none, "t0"⟩ none "sid1" "t1")
        (some "finance") = some "sid1" := by
  constructor
  · exact (c10_legacy_fallback_read ⟨[], none, "t0"⟩ (some "research") "finance" "sid1" "t1").1
      (by decide)
  · exact (c10_legacy_fallback_read ⟨[], none, "t0"⟩ (some "research") "finance" "sid1" "t1").2
      (by decide) (by decide) (by decide)

/-! ## Claim C5 — which goal a DONE directive completes -/

/-- `find?` returns the element at the first index whose predicate
holds. -/
theorem find?_of_first_index {α : Type} (p : α → Bool) :
    ∀ (l : List α) (i : Nat) (a : α), l.get? i = some a → p a = true →
      (∀ j b, j < i → l.get? j = some b → p b = false) → l.find? p = some a := by
  intro l
  induction l with
  | nil => intro i a h; simp at h
  | cons x t ih =>
    intro i a hget hp hmin
    cases i with
    | zero =>
      rw [List.get?_cons_zero] at hget
      obtain rfl := Option.some.inj hget
      simp [List.find?, hp]
    | succ n =>
      have hx : p x = false := hmin 0 x (Nat.succ_pos n) rfl
      rw [List.get?_cons_succ] at hget
      simp [List.find?, hx]
      exact ih n a hget hp fun j b hj hgj =>
        hmin (j + 1) b (Nat.succ_lt_succ hj)
          (by rw [List.get?_cons_succ]; exact hgj)

/-- Updating the rows matching an id equals `List.set` at the row's
index when the ids in the table are distinct. -/
theorem map_update_eq_set (upd : MemRow → MemRow) :
    ∀ (store : List MemRow) (i : Nat) (a : MemRow), store.get? i = some a →
      (store.map MemRow.id).Nodup →
      store.map (fun x => if x.id == a.id then upd x else x) = store.set i (upd a) := by
  intro store
  induction store with
  | nil => intro i a h; simp at h
  | cons x t ih =>
    intro i a hget hnodup
    rw [List.map_cons, List.nodup_cons] at hnodup
    cases i with
    | zero =>
      rw [List.get?_cons_zero] at hget
      obtain rfl := Option.some.inj hget
      show (if (x.id == x.id) = true then upd x else x) ::
          t.map (fun y => if y.id == x.id then upd y else y) = upd x :: t
      rw [if_pos (by simp)]
      have ht : ∀ y ∈ t, (if (y.id == x.id) = true then upd y else y) = y := by
        intro y hy
        have hne : y.id ≠ x.id := fun he =>
          hnodup.1 (he ▸ List.mem_map_of_mem MemRow.id hy)
        simp [hne]
      rw [List.map_congr_left ht]
      simp
    | succ n =>
      rw [List.get?_cons_succ] at hget
      have hmem : a ∈ t := List.get?_mem hget
      have hx : x.id ≠ a.id := fun he =>
        hnodup.1 (he ▸ List.mem_map_of_mem MemRow.id hmem)
      show (if (x.id == a.id) = true then upd x else x) ::
          t.map (fun y => if y.id == a.id then upd y else y) =
          x :: t.set n (upd a)
      rw [if_neg (by simp [hx])]
      rw [ih n a hget hnodup.2]

/-- The memory table used in the C5 counterexample: two pending goals
both containing "thesis", the row with id 1 being the more recently
inserted. -/
def memStoreC5 : List MemRow :=
  [{ id := 0, type := "goal", content := "finish thesis", deadline := none,
     completed_at := none },
   { id := 1, type := "goal", content := "finish thesis draft", deadline := none,
     completed_at := none }]

/-- C5 (counterexample): processing `[DONE: thesis]` against a table
holding two matching pending goals completes the *first* row in table
order (id 0, the older one), not the most recent matching goal (id 1)
— the query has no `order` clause. -/
theorem c5_done_most_recent_counterexample :
    (processIntents memStoreC5 "t1" "[DONE: thesis]").1 =
      [{ id := 0, type := "completed_goal", content := "finish thesis",
         deadline := none, completed_at := some "t1" },
       { id := 1, type := "goal", content := "finish thesis draft",
         deadline := none, completed_at := none }]
    ∧ (processIntents memStoreC5 "t1" "[DONE: thesis]").1 ≠
      [{ id := 0, type := "goal", content := "finish thesis",
         deadline := none, completed_at := none },
       { id := 1, type := "completed_goal", content := "finish thesis draft",
         deadline := none, completed_at := some "t1" }] := by
  decide

/-- C5 (amended): a `DONE` search with no matching pending goal is a
silent no-op, and otherwise the goal transitioned to
`{type: "completed_goal", completed_at: now}` is the *first* matching
pending goal in table order (the query requests no ordering), not
necessarily the most recent one. -/
theorem c5_done_first_match_amended (store : List MemRow) (search now : String) :
    ((∀ r ∈ store, goalMatches search r = false) → completeGoal store search now = store)
    ∧ (∀ i a, store.get? i = some a → goalMatches search a = true →
        (∀ j b, j < i → store.get? j = some b → goalMatches search b = false) →
        (store.map MemRow.id).Nodup →
        completeGoal store search now =
          store.set i { a with type := "completed_goal", completed_at := some now }) := by
  constructor
  · intro h
    have : store.find? (goalMatches search) = none := List.find?_eq_none.2 fun x hx => by
      simp [h x hx]
    simp [completeGoal, this]
  · intro i a hget hp hmin hnodup
    have hfind : store.find? (goalMatches search) = some a :=
      find?_of_first_index (goalMatches search) store i a hget hp hmin
    simp only [completeGoal, hfind]
    exact map_update_eq_set _ store i a hget hnodup

/-- C5 witness: on the two-goal table, the amended statement yields the
first matching row in table order. -/
theorem c5_done_first_match_amended_witness :
    completeGoal memStoreC5 "thesis" "t1" =
      memStoreC5.set 0
        { id := 0, type := "completed_goal", content := "finish thesis",
          deadline := none, completed_at := some "t1" } :=
  (c5_done_first_match_amended memStoreC5 "thesis" "t1").2 0
    { id := 0, type := "goal", content := "finish thesis", deadline := none,
      completed_at := none }
    (by decide) (by decide) (by intro j b hj; omega) (by decide)

/-! ## Claim C4 — approveAction success vs persisted status -/

/-- Filtering by id commutes with an id-preserving per-id update. -/
theorem filter_id_map_update (store : List ActionRow) (actionId : String)
    (f : ActionRow → ActionRow) (hid : ∀ a, (f a).id = a.id) :
    (store.map (fun a => if a.id == actionId then f a else a)).filter
        (fun a => a.id == actionId)
      = (store.filter (fun a => a.id == actionId)).map f := by
  induction store with
  | nil => rfl
  | cons a t ih =>
    simp only [List.map_cons, List.filter_cons, beq_iff_eq] at ih ⊢
    by_cases ha : a.id = actionId
    · have hfa : (f a).id = actionId := by rw [hid a]; exact ha
      simp [ha, hfa, ih]
    · simp [ha, ih]

/-- `getAction` after an id-preserving per-id update. -/
theorem getActionRow_update (store : List ActionRow) (actionId : String)
    (f : ActionRow → ActionRow) (hid : ∀ a, (f a).id = a.id) :
    getActionRow (store.map (fun a => if a.id == actionId then f a else a)) actionId
      = (getActionRow store actionId).map f := by
  unfold getActionRow
  rw [filter_id_map_update store actionId f hid]
  rcases h : store.filter (fun a => a.id == actionId) with _ | ⟨a, _ | ⟨b, t⟩⟩ <;>
    rw [h] <;> rfl

/-- `getAction` after the approved-status write. -/
theorem getActionRow_updateStatusRows (store : List ActionRow) (actionId st : String) :
    getActionRow (updateStatusRows store actionId st) actionId
      = (getActionRow store actionId).map (fun a => { a with status := st }) :=
  getActionRow_update store actionId (fun a => { a with status := st }) (fun _ => rfl)

/-- `getAction` after the executed-status write. -/
theorem getActionRow_updateExecutedRows (store : List ActionRow)
    (actionId st now : String) :
    getActionRow (updateExecutedRows store actionId st now) actionId
      = (getActionRow store actionId).map
          (fun a => { a with status := st, executed_at := some now }) :=
  getActionRow_update store actionId
    (fun a => { a with status := st, executed_at := some now }) (fun _ => rfl)

/-- The pending C4 action row. -/
def c4row : ActionRow :=
  { id := "a1", type := "create_task", description := "Create task: \"x\"",
    payload := [("title", "x")], status := "pending", created_at := "t0",
    executed_at := none }

/-- C4 (counterexample): when the write that should mark the action
executed fails (its error object is ignored by the source),
`approveAction` still reports `success: true` while the persisted
status remains `"approved"` — an observable approved-but-not-executed
outcome. -/
theorem c4_success_executed_counterexample :
    (approveAction true [c4row] "a1" "t1" true false).1.success = true
    ∧ (getActionRow (approveAction true [c4row] "a1" "t1" true false).2 "a1").map
        ActionRow.status = some "approved"
    ∧ (getActionRow (approveAction true [c4row] "a1" "t1" true false).2 "a1").map
        ActionRow.status ≠ some "executed" := by
  decide

/-- C4 (amended): whenever `approveAction` returns success, the
approve write succeeded and the executor ran; the persisted status is
`"executed"` with `executed_at` set only if the executed-status write
itself succeeded — if that write fails the call still reports success
and the action remains `"approved"`. -/
theorem c4_success_executed_amended (avail : Bool) (store : List ActionRow)
    (actionId now : String) (aok eok : Bool)
    (hs : (approveAction avail store actionId now aok eok).1.success = true) :
    ∀ a2, getActionRow (approveAction avail store actionId now aok eok).2 actionId
        = some a2 →
      (eok = true → a2.status = "executed" ∧ a2.executed_at = some now)
      ∧ (eok = false → a2.status = "approved") := by
  by_cases hav : avail = false
  · simp [approveAction, hav] at hs
  · cases hga : getActionRow store actionId with
    | none => simp [approveAction, hav, hga] at hs
    | some action =>
      cases hst : action.status != "pending" with
      | true => simp [approveAction, hav, hga, hst] at hs
      | false =>
        by_cases haok : aok = false
        · simp [approveAction, hav, hga, hst, haok] at hs
        · obtain rfl : avail = true := by cases avail <;> simp_all
          obtain rfl : aok = true := by cases aok <;> simp_all
          intro a2 hga2
          cases eok with
          | true =>
            simp [approveAction, hga, hst, getActionRow_updateExecutedRows,
              getActionRow_updateStatusRows] at hga2
            subst hga2
            simp
          | false =>
            simp [approveAction, hga, hst, getActionRow_updateStatusRows] at hga2
            subst hga2
            simp

/-- C4 witness: with both writes succeeding on the pending C4 row, the
persisted row is executed with `executed_at` set. -/
theorem c4_success_executed_amended_witness :
    ({ c4row with status := "executed", executed_at := some "t1" } : ActionRow).status
        = "executed"
    ∧ ({ c4row with status := "executed", executed_at := some "t1" } : ActionRow).executed_at
        = some "t1" :=
  (c4_success_executed_amended true [c4row] "a1" "t1" true true (by decide)
    { c4row with status := "executed", executed_at := some "t1" } (by decide)).1 rfl

/-! ## Claim C1 — the action status state machine -/

/-- A legal status transition: stay put, or leave `"pending"` for one
of `"approved"`, `"executed"`, `"denied"`. -/
def legalStep (s t : String) : Prop :=
  t = s ∨ (s = "pending" ∧ (t = "approved" ∨ t = "executed" ∨ t = "denied"))

/-- A successful `single()` means the filter produced exactly one row. -/
theorem getActionRow_filter_eq (store : List ActionRow) (actionId : String)
    (action : ActionRow) (h : getActionRow store actionId = some action) :
    store.filter (fun r => r.id == actionId) = [action] := by
  unfold getActionRow at h
  rcases hf : store.filter (fun r => r.id == actionId) with _ | ⟨x, _ | ⟨y, t⟩⟩ <;>
    rw [hf] at h
  · exact absurd h (by simp)
  · obtain rfl := Option.some.inj h
    exact hf
  · exact absurd h (by simp)

/-- Rows whose id matches a singleton filter equal the looked-up row. -/
theorem eq_of_filter_singleton (store : List ActionRow) (actionId : String)
    (action : ActionRow)
    (hflt : store.filter (fun r => r.id == actionId) = [action])
    (a : ActionRow) (hmem : a ∈ store) (hida : (a.id == actionId) = true) :
    a = action := by
  have : a ∈ store.filter (fun r => r.id == actionId) :=
    List.mem_filter.2 ⟨hmem, hida⟩
  rw [hflt] at this
  simpa using this

/-- Reading position `j` through a per-id update. -/
theorem get?_map_update (store : List ActionRow) (actionId : String)
    (f : ActionRow → ActionRow) (j : Nat) (a : ActionRow)
    (hget : store.get? j = some a) :
    (store.map (fun r => if r.id == actionId then f r else r)).get? j
      = some (if a.id == actionId then f a else a) := by
  rw [List.get?_map, hget]
  rfl

/-- `approveAction` on a non-pending action: no write, failure result
naming the current status. -/
theorem approveAction_not_pending (store : List ActionRow) (actionId now : String)
    (aok eok : Bool) (a : ActionRow) (hga : getActionRow store actionId = some a)
    (hs : a.status ≠ "pending") :
    approveAction true store actionId now aok eok
      = (⟨false, "Action already " ++ a.status⟩, store) := by
  have hst : (a.status != "pending") = true := by simpa using hs
  simp [approveAction, hga, hst]

/-- `denyAction` on a non-pending action: no write, failure result
naming the current status. -/
theorem denyAction_not_pending (store : List ActionRow) (actionId : String)
    (dok : Bool) (a : ActionRow) (hga : getActionRow store actionId = some a)
    (hs : a.status ≠ "pending") :
    denyAction true store actionId dok
      = (⟨false, "Action already " ++ a.status⟩, store) := by
  have hst : (a.status != "pending") = true := by simpa using hs
  simp [denyAction, hga, hst]

/-- `approveAction` succeeds only from `"pending"`. -/
theorem approveAction_success_pending (avail : Bool) (store : List ActionRow)
    (actionId now : String) (aok eok : Bool)
    (hs : (approveAction avail store actionId now aok eok).1.success = true) :
    ∃ a, getActionRow store actionId = some a ∧ a.status = "pending" := by
  by_cases hav : avail = false
  · simp [approveAction, hav] at hs
  · cases hga : getActionRow store actionId with
    | none => simp [approveAction, hav, hga] at hs
    | some action =>
      cases hst : action.status != "pending" with
      | true => simp [approveAction, hav, hga, hst] at hs
      | false => exact ⟨action, rfl, by simpa using hst⟩

/-- `denyAction` succeeds only from `"pending"`. -/
theorem denyAction_success_pending (avail : Bool) (store : List ActionRow)
    (actionId : String) (dok : Bool)
    (hs : (denyAction avail store actionId dok).1.success = true) :
    ∃ a, getActionRow store actionId = some a ∧ a.status = "pending" := by
  by_cases hav : avail = false
  · simp [denyAction, hav] at hs
  · cases hga : getActionRow store actionId with
    | none => simp [denyAction, hav, hga] at hs
    | some action =>
      cases hst : action.status != "pending" with
      | true => simp [denyAction, hav, hga, hst] at hs
      | false => exact ⟨action, rfl, by simpa using hst⟩

/-- C1: the action lifecycle is exactly
`pending → approved → executed` or `pending → denied`: approval and
denial succeed only from `"pending"`; on any other stored status they
perform no write and return `success: false` with a description naming
the actual current status; every row of the store makes only legal
steps; and a second `approveAction` on an id just approved and
executed returns `{success: false, description: "Action already
executed"}` without further change. -/
theorem c1_action_state_machine (avail : Bool) (store : List ActionRow)
    (actionId now : String) (aok eok dok : Bool) :
    (∀ a, avail = true → getActionRow store actionId = some a → a.status ≠ "pending" →
        approveAction avail store actionId now aok eok
          = (⟨false, "Action already " ++ a.status⟩, store)
        ∧ denyAction avail store actionId dok
          = (⟨false, "Action already " ++ a.status⟩, store))
    ∧ ((approveAction avail store actionId now aok eok).1.success = true →
        ∃ a, getActionRow store actionId = some a ∧ a.status = "pending")
    ∧ ((denyAction avail store actionId dok).1.success = true →
        ∃ a, getActionRow store actionId = some a ∧ a.status = "pending")
    ∧ (∀ j a, store.get? j = some a →
        ∃ b, (approveAction avail store actionId now aok eok).2.get? j = some b
          ∧ b.id = a.id ∧ legalStep a.status b.status)
    ∧ (∀ j a, store.get? j = some a →
        ∃ b, (denyAction avail store actionId dok).2.get? j = some b
          ∧ b.id = a.id ∧ legalStep a.status b.status)
    ∧ ((approveAction avail store actionId now true true).1.success = true →
        approveAction avail ((approveAction avail store actionId now true true).2)
            actionId now aok eok
          = (⟨false, "Action already executed"⟩,
             (approveAction avail store actionId now true true).2)) := by
  refine ⟨?_, approveAction_success_pending avail store actionId now aok eok,
    denyAction_success_pending avail store actionId dok, ?_, ?_, ?_⟩
  · rintro a rfl hga hs
    exact ⟨approveAction_not_pending store actionId now aok eok a hga hs,
      denyAction_not_pending store actionId dok a hga hs⟩
  · -- approve legality
    intro j a hget
    by_cases hav : avail = false
    · have hres : (approveAction avail store actionId now aok eok).2 = store := by
        simp [approveAction, hav]
      exact ⟨a, by rw [hres]; exact hget, rfl, Or.inl rfl⟩
    · obtain rfl : avail = true := by cases avail <;> simp_all
      cases hga : getActionRow store actionId with
      | none =>
        have hres : (approveAction true store actionId now aok eok).2 = store := by
          simp [approveAction, hga]
        exact ⟨a, by rw [hres]; exact hget, rfl, Or.inl rfl⟩
      | some action =>
        cases hst : action.status != "pending" with
        | true =>
          have hres : (approveAction true store actionId now aok eok).2 = store := by
            simp [approveAction, hga, hst]
          exact ⟨a, by rw [hres]; exact hget, rfl, Or.inl rfl⟩
        | false =>
          by_cases haok : aok = false
          · have hres : (approveAction true store actionId now aok eok).2 = store := by
              simp [approveAction, hga, hst, haok]
            exact ⟨a, by rw [hres]; exact hget, rfl, Or.inl rfl⟩
          · obtain rfl : aok = true := by cases aok <;> simp_all
            have hpend : action.status = "pending" := by simpa using hst
            have hflt := getActionRow_filter_eq store actionId action hga
            have hres : (approveAction true store actionId now true eok).2
                = (if eok then
                    updateExecutedRows (updateStatusRows store actionId "approved")
                      actionId "executed" now
                  else updateStatusRows store actionId "approved") := by
              simp [approveAction, hga, hst]
            by_cases hida : a.id = actionId
            · have hb : (a.id == actionId) = true := by simpa using hida
              have haction : a = action :=
                eq_of_filter_singleton store actionId action hflt a
                  (List.get?_mem hget) hb
              have hastat : a.status = "pending" := by rw [haction]; exact hpend
              have h1 : (updateStatusRows store actionId "approved").get? j
                  = some { a with status := "approved" } := by
                have := get?_map_update store actionId
                  (fun r => { r with status := "approved" }) j a hget
                rwa [if_pos hb] at this
              cases eok with
              | true =>
                have h2 : (updateExecutedRows (updateStatusRows store actionId "approved")
                      actionId "executed" now).get? j
                    = some { a with status := "executed", executed_at := some now } := by
                  have := get?_map_update (updateStatusRows store actionId "approved")
                    actionId
                    (fun r => { r with status := "executed", executed_at := some now })
                    j { a with status := "approved" } h1
                  rwa [if_pos hb] at this
                refine ⟨{ a with status := "executed", executed_at := some now },
                  ?_, rfl, Or.inr ⟨hastat, Or.inr (Or.inl rfl)⟩⟩
                rw [hres, if_pos rfl]
                exact h2
              | false =>
                refine ⟨{ a with status := "approved" },
                  ?_, rfl, Or.inr ⟨hastat, Or.inl rfl⟩⟩
                rw [hres, if_neg (by simp)]
                exact h1
            · have hb : ¬ ((a.id == actionId) = true) := by simpa using hida
              have h1 : (updateStatusRows store actionId "approved").get? j
                  = some a := by
                have := get?_map_update store actionId
                  (fun r => { r with status := "approved" }) j a hget
                rwa [if_neg hb] at this
              cases eok with
              | true =>
                have h2 : (updateExecutedRows (updateStatusRows store actionId "approved")
                      actionId "executed" now).get? j = some a := by
                  have := get?_map_update (updateStatusRows store actionId "approved")
                    actionId
                    (fun r => { r with status := "executed", executed_at := some now })
                    j a h1
                  rwa [if_neg hb] at this
                refine ⟨a, ?_, rfl, Or.inl rfl⟩
                rw [hres, if_pos rfl]
                exact h2
              | false =>
                refine ⟨a, ?_, rfl, Or.inl rfl⟩
                rw [hres, if_neg (by simp)]
                exact h1
  · -- deny legality
    intro j a hget
    by_cases hav : avail = false
    · have hres : (denyAction avail store actionId dok).2 = store := by
        simp [denyAction, hav]
      exact ⟨a, by rw [hres]; exact hget, rfl, Or.inl rfl⟩
    · obtain rfl : avail = true := by cases avail <;> simp_all
      cases hga : getActionRow store actionId with
      | none =>
        have hres : (denyAction true store actionId dok).2 = store := by
          simp [denyAction, hga]
        exact ⟨a, by rw [hres]; exact hget, rfl, Or.inl rfl⟩
      | some action =>
        cases hst : action.status != "pending" with
        | true =>
          have hres : (denyAction true store actionId dok).2 = store := by
            simp [denyAction, hga, hst]
          exact ⟨a, by rw [hres]; exact hget, rfl, Or.inl rfl⟩
        | false =>
          by_cases hdok : dok = false
          · have hres : (denyAction true store actionId dok).2 = store := by
              simp [denyAction, hga, hst, hdok]
            exact ⟨a, by rw [hres]; exact hget, rfl, Or.inl rfl⟩
          · obtain rfl : dok = true := by cases dok <;> simp_all
            have hpend : action.status = "pending" := by simpa using hst
            have hflt := getActionRow_filter_eq store actionId action hga
            have hres : (denyAction true store actionId true).2
                = updateStatusRows store actionId "denied" := by
              simp [denyAction, hga, hst]
            by_cases hida : a.id = actionId
            · have hb : (a.id == actionId) = true := by simpa using hida
              have haction : a = action :=
                eq_of_filter_singleton store actionId action hflt a
                  (List.get?_mem hget) hb
              have hastat : a.status = "pending" := by rw [haction]; exact hpend
              refine ⟨{ a with status := "denied" },
                ?_, rfl, Or.inr ⟨hastat, Or.inr (Or.inr rfl)⟩⟩
              rw [hres]
              have := get?_map_update store actionId
                (fun r => { r with status := "denied" }) j a hget
              rwa [if_pos hb] at this
            · have hb : ¬ ((a.id == actionId) = true) := by simpa using hida
              refine ⟨a, ?_, rfl, Or.inl rfl⟩
              rw [hres]
              have := get?_map_update store actionId
                (fun r => { r with status := "denied" }) j a hget
              rwa [if_neg hb] at this
  · -- second approval after a successful one
    intro hs
    by_cases hav : avail = false
    · simp [approveAction, hav] at hs
    · obtain rfl : avail = true := by cases avail <;> simp_all
      cases hga : getActionRow store actionId with
      | none => simp [approveAction, hga] at hs
      | some action =>
        cases hst : action.status != "pending" with
        | true => simp [approveAction, hga, hst] at hs
        | false =>
          have hres2 : (approveAction true store actionId now true true).2
              = updateExecutedRows (updateStatusRows store actionId "approved")
                  actionId "executed" now := by
            simp [approveAction, hga, hst]
          have hga2 : getActionRow (approveAction true store actionId now true true).2
              actionId
              = some { action with status := "executed", executed_at := some now } := by
            rw [hres2, getActionRow_updateExecutedRows,
              getActionRow_updateStatusRows, hga]
            rfl
          have h2 := approveAction_not_pending
            ((approveAction true store actionId now true true).2) actionId now aok eok
            { action with status := "executed", executed_at := some now } hga2 (by simp)
          rw [h2]
          rfl

/-- C1 witness: on a one-row store holding a pending action, the first
approval succeeds and the second returns the already-executed failure. -/
theorem c1_action_state_machine_witness :
    approveAction true
        ((approveAction true [c4row] "a1" "t1" true true).2) "a1" "t1" true true
      = (⟨false, "Action already executed"⟩,
         (approveAction true [c4row] "a1" "t1" true true).2) :=
  (c1_action_state_machine true [c4row] "a1" "t1" true true true).2.2.2.2.2 (by decide)

/-! ## Claim C6 — board meeting failure isolation -/

/-- Whether a model-call promise rejected. -/
def isError (e : Except String String) : Bool :=
  match e with
  | Except.error _ => true
  | Except.ok _ => false

/-- A meeting response carries `error` exactly when the model call for
that specialist threw. -/
theorem callAgentForMeeting_error (a : AgentConfig) (question : String)
    (callModel : String → Except String String) (profile : Option String) :
    (callAgentForMeeting a question callModel profile).error.isSome
      = isError (callModel (meetingPrompt a question profile)) := by
  cases h : callModel (meetingPrompt a question profile) <;>
    simp [callAgentForMeeting, h, isError]

/-- Filter length through a map whose predicate factors. -/
theorem length_filter_map_eq {α β : Type} (g : α → β) (p : β → Bool) (q : α → Bool)
    (hpq : ∀ a, p (g a) = q a) :
    ∀ l : List α, ((l.map g).filter p).length = (l.filter q).length := by
  intro l
  induction l with
  | nil => rfl
  | cons a t ih =>
    cases hq : q a with
    | true => simp [List.filter_cons, hpq, hq, ih]
    | false => simp [List.filter_cons, hpq, hq, ih]

/-- Every element of a joined list is an infix of the join. -/
theorem mem_infix_joinSep (sep : String) :
    ∀ (l : List String) (s : String), s ∈ l →
      List.IsInfix s.data (joinSep sep l).data := by
  intro l
  induction l with
  | nil => intro s h; simp at h
  | cons x t ih =>
    intro s hs
    cases t with
    | nil =>
      rcases List.mem_singleton.1 hs with rfl
      exact List.infix_refl _
    | cons y t2 =>
      rcases List.mem_cons.1 hs with rfl | hmem
      · refine ⟨[], ((sep ++ joinSep sep (y :: t2)).data), ?_⟩
        show s.data ++ (sep ++ joinSep sep (y :: t2)).data
          = (joinSep sep (s :: y :: t2)).data
        rw [show joinSep sep (s :: y :: t2) = s ++ sep ++ joinSep sep (y :: t2) from rfl]
        simp [String.data_append]
      · have h2 := ih s hmem
        have : List.IsInfix (joinSep sep (y :: t2)).data
            (joinSep sep (x :: y :: t2)).data := by
          refine ⟨(x ++ sep).data, [], ?_⟩
          rw [show joinSep sep (x :: y :: t2) = x ++ sep ++ joinSep sep (y :: t2) from rfl]
          simp [String.data_append]
        exact h2.trans this

/-- C6: with exactly one specialist's call throwing, the meeting still
produces one response per specialist, exactly one carries `error` (its
response being the per-agent placeholder), the synthesis prompt embeds
every specialist's name-and-response block (the placeholder included),
and the synthesis step still runs over all of them. -/
theorem c6_board_isolation (specialists : List AgentConfig) (general : AgentConfig)
    (question : String) (callModel : String → Except String String)
    (profile : Option String)
    (h1 : (specialists.filter
        (fun a => isError (callModel (meetingPrompt a question profile)))).length = 1) :
    (runBoardMeeting specialists general question callModel profile).responses.length
        = specialists.length
    ∧ ((runBoardMeeting specialists general question callModel profile).responses.filter
        (fun r => r.error.isSome)).length = 1
    ∧ (∀ r ∈ (runBoardMeeting specialists general question callModel profile).responses,
        r.error.isSome →
          r.response = "[" ++ r.agent.name ++ " agent was unable to respond]")
    ∧ (∀ r ∈ (runBoardMeeting specialists general question callModel profile).responses,
        List.IsInfix ("### " ++ r.agent.name ++ "\n" ++ r.response).data
          (synthesisPrompt general question
            (runBoardMeeting specialists general question callModel profile).responses).data)
    ∧ (runBoardMeeting specialists general question callModel profile).synthesis
        = synthesizeResponses general question
            (runBoardMeeting specialists general question callModel profile).responses
            callModel := by
  refine ⟨by simp [runBoardMeeting], ?_, ?_, ?_, rfl⟩
  · rw [show (runBoardMeeting specialists general question callModel profile).responses
        = specialists.map
            (fun a => callAgentForMeeting a question callModel profile) from rfl]
    rw [length_filter_map_eq
      (fun a => callAgentForMeeting a question callModel profile)
      (fun r => r.error.isSome)
      (fun a => isError (callModel (meetingPrompt a question profile)))
      (fun a => callAgentForMeeting_error a question callModel profile)]
    exact h1
  · intro r hr he
    rw [show (runBoardMeeting specialists general question callModel profile).responses
        = specialists.map
            (fun a => callAgentForMeeting a question callModel profile) from rfl] at hr
    obtain ⟨a, _, rfl⟩ := List.mem_map.1 hr
    cases hf : callModel (meetingPrompt a question profile) with
    | ok t => simp [callAgentForMeeting, hf] at he
    | error e => simp [callAgentForMeeting, hf]
  · intro r hr
    have hsum : ("### " ++ r.agent.name ++ "\n" ++ r.response)
        ∈ (runBoardMeeting specialists general question callModel profile).responses.map
            (fun r => "### " ++ r.agent.name ++ "\n" ++ r.response) :=
      List.mem_map_of_mem _ hr
    have h2 := mem_infix_joinSep "\n\n"
      ((runBoardMeeting specialists general question callModel profile).responses.map
        (fun r => "### " ++ r.agent.name ++ "\n" ++ r.response))
      ("### " ++ r.agent.name ++ "\n" ++ r.response) hsum
    have h3 : List.IsInfix
        (joinSep "\n\n"
          ((runBoardMeeting specialists general question callModel profile).responses.map
            (fun r => "### " ++ r.agent.name ++ "\n" ++ r.response))).data
        (synthesisPrompt general question
          (runBoardMeeting specialists general question callModel profile).responses).data := by
      apply mem_infix_joinSep
      simp [synthesisPrompt]
    exact h2.trans h3

/-- The two-specialist C6 witness configuration: the research agent's
call throws, the finance agent's call succeeds. -/
def c6CallModel : String → Except String String := fun p =>
  if p = meetingPrompt ⟨"Research", "research", "rp"⟩ "q" none then Except.error "boom"
  else Except.ok "fine"

set_option maxRecDepth 8192 in
/-- C6 witness: two specialists, exactly one throwing call. -/
theorem c6_board_isolation_witness :
    (runBoardMeeting [⟨"Research", "research", "rp"⟩, ⟨"Finance", "finance", "fp"⟩]
        ⟨"General", "general", "gp"⟩ "q" c6CallModel none).responses.length = 2
    ∧ ((runBoardMeeting [⟨"Research", "research", "rp"⟩, ⟨"Finance", "finance", "fp"⟩]
        ⟨"General", "general", "gp"⟩ "q" c6CallModel none).responses.filter
          (fun r => r.error.isSome)).length = 1 := by
  have h := c6_board_isolation
    [⟨"Research", "research", "rp"⟩, ⟨"Finance", "finance", "fp"⟩]
    ⟨"General", "general", "gp"⟩ "q" c6CallModel none (by decide)
  exact ⟨h.1, h.2.1⟩

/-! ## Claim C8 — (non-)idempotence of tag stripping -/

/-- Only `'['` lower-cases to `'['`. -/
theorem asciiLower_lbracket {c : Char} (h : asciiLower c = '[') : c = '[' := by
  unfold asciiLower at h
  split at h <;> first | exact h | exact absurd h (by decide)

/-- Matching `'['` case-insensitively pins the character down. -/
theorem charEqCI_lbracket {d : Char} (h : charEqCI '[' d = true) : d = '[' := by
  unfold charEqCI at h
  have h2 : asciiLower '[' = asciiLower d := by simpa using h
  exact asciiLower_lbracket (by rw [← h2]; rfl)

/-- Inversion for a case-insensitive literal starting at a character. -/
theorem stripLitCI_cons_some {c : Char} {lit s r : List Char}
    (h : stripLitCI (c :: lit) s = some r) :
    ∃ d t, s = d :: t ∧ charEqCI c d = true ∧ stripLitCI lit t = some r := by
  cases s with
  | nil => exact absurd h (by simp [stripLitCI])
  | cons d t =>
    simp only [stripLitCI] at h
    by_cases hc : charEqCI c d = true
    · rw [if_pos hc] at h
      exact ⟨d, t, rfl, hc, h⟩
    · rw [if_neg hc] at h
      exact absurd h (by simp)

/-- A matched literal consumes exactly its own length. -/
theorem stripLitCI_length :
    ∀ (lit s r : List Char), stripLitCI lit s = some r →
      s.length = r.length + lit.length := by
  intro lit
  induction lit with
  | nil =>
    intro s r h
    simp only [stripLitCI, Option.some.injEq] at h
    subst h
    simp
  | cons c lit ih =>
    intro s r h
    obtain ⟨d, t, rfl, _, h2⟩ := stripLitCI_cons_some h
    have := ih t r h2
    simp only [List.length_cons]
    omega

/-- A literal starting with `'['` never matches input without `'['`. -/
theorem stripLitCI_lbracket_none {lit2 s : List Char} (hs : '[' ∉ s) :
    stripLitCI ('[' :: lit2) s = none := by
  cases s with
  | nil => rfl
  | cons d t =>
    have hd : d ≠ '[' := fun he => hs (he ▸ List.mem_cons_self d t)
    have hc : ¬ charEqCI '[' d = true := fun hcc => hd (charEqCI_lbracket hcc)
    simp only [stripLitCI]
    rw [if_neg hc]

/-- Backtracking `\s*` hands the continuation a suffix no longer than
its input. -/
theorem wsStarGreedy_bound {α : Type} :
    ∀ (s : List Char) (k : List Char → Option α) (a : α),
      wsStarGreedy s k = some a → ∃ s2, s2.length ≤ s.length ∧ k s2 = some a := by
  intro s
  induction s with
  | nil =>
    intro k a h
    exact ⟨[], Nat.le_refl _, by simpa [wsStarGreedy] using h⟩
  | cons c rest ih =>
    intro k a h
    simp only [wsStarGreedy] at h
    by_cases hw : isJsWs c = true
    · rw [if_pos hw] at h
      cases hrec : wsStarGreedy rest k with
      | some b =>
        rw [hrec] at h
        simp only [Option.some_orElse] at h
        obtain rfl := Option.some.inj h
        obtain ⟨s2, hs2, hk⟩ := ih k b hrec
        exact ⟨s2, Nat.le_succ_of_le hs2, hk⟩
      | none =>
        rw [hrec] at h
        simp only [Option.none_orElse] at h
        exact ⟨c :: rest, Nat.le_refl _, h⟩
    · rw [if_neg hw] at h
      exact ⟨c :: rest, Nat.le_refl _, h⟩

/-- Lazy `X+?` hands the continuation a strictly shorter suffix. -/
theorem lazyPlus_bound {α : Type} (p : Char → Bool) :
    ∀ (s : List Char) (k : List Char → List Char → Option α) (a : α),
      lazyPlus p s k = some a →
        ∃ cs r, r.length < s.length ∧ k cs r = some a := by
  intro s
  induction s with
  | nil => intro k a h; exact absurd h (by simp [lazyPlus])
  | cons c rest ih =>
    intro k a h
    simp only [lazyPlus] at h
    by_cases hp : p c = true
    · rw [if_pos hp] at h
      cases hk : k [c] rest with
      | some b =>
        rw [hk] at h
        simp only [Option.some_orElse] at h
        obtain rfl := Option.some.inj h
        exact ⟨[c], rest, Nat.lt_succ_self _, hk⟩
      | none =>
        rw [hk] at h
        simp only [Option.none_orElse] at h
        obtain ⟨cs, r, hr, hk2⟩ := ih (fun cs r => k (c :: cs) r) a h
        exact ⟨c :: cs, r, Nat.lt_succ_of_lt hr, hk2⟩
    · rw [if_neg hp] at h
      exact absurd h (by simp)

/-- The shared shape of the `REMEMBER`/`DONE` patterns: a successful
match starts at a `'['` and consumes at least one character. -/
theorem matchSimpleTag_bound (lit2 : List Char) :
    ∀ {s g1 : List Char} {g2 : Option (List Char)} {r : List Char},
      ((stripLitCI ('[' :: lit2) s).bind fun s1 =>
        wsStarGreedy s1 fun s2 =>
        lazyPlus (fun c => !(c == '\n')) s2 fun t s3 =>
          match s3 with
          | ']' :: s7 => some (t, none, s7)
          | _ => none) = some (g1, g2, r) →
      (∃ t2, s = '[' :: t2) ∧ r.length < s.length := by
  intro s g1 g2 r h
  cases hstrip : stripLitCI ('[' :: lit2) s with
  | none => rw [hstrip] at h; exact absurd h (by simp)
  | some s1 =>
    rw [hstrip] at h
    simp only [Option.some_bind] at h
    obtain ⟨d, t, rfl, hc, _⟩ := stripLitCI_cons_some hstrip
    obtain rfl := charEqCI_lbracket hc
    have hlen1 := stripLitCI_length _ _ _ hstrip
    obtain ⟨s2, hs2, hk⟩ := wsStarGreedy_bound s1 _ _ h
    obtain ⟨cs, s3, h3, hK⟩ := lazyPlus_bound _ s2 _ _ hk
    split at hK
    · simp only [Option.some.injEq, Prod.mk.injEq] at hK
      obtain ⟨rfl, rfl, rfl⟩ := hK
      refine ⟨⟨t, rfl⟩, ?_⟩
      simp only [List.length_cons] at h3 hlen1 ⊢
      omega
    · exact absurd hK (by simp)

/-- `matchRememberAt` starts at `'['` and consumes at least one
character. -/
theorem matchRememberAt_bound {s g1 : List Char} {g2 : Option (List Char)}
    {r : List Char} (h : matchRememberAt s = some (g1, g2, r)) :
    (∃ t2, s = '[' :: t2) ∧ r.length < s.length :=
  matchSimpleTag_bound "REMEMBER:".data h

/-- `matchDoneAt` starts at `'['` and consumes at least one character. -/
theorem matchDoneAt_bound {s g1 : List Char} {g2 : Option (List Char)}
    {r : List Char} (h : matchDoneAt s = some (g1, g2, r)) :
    (∃ t2, s = '[' :: t2) ∧ r.length < s.length :=
  matchSimpleTag_bound "DONE:".data h

/-- `matchActionAt` starts at `'['` and consumes at least one
character. -/
theorem matchActionAt_bound {s g1 : List Char} {g2 : Option (List Char)}
    {r : List Char} (h : matchActionAt s = some (g1, g2, r)) :
    (∃ t2, s = '[' :: t2) ∧ r.length < s.length := by
  unfold matchActionAt at h
  cases hstrip : stripLitCI "[ACTION:".data s with
  | none => rw [hstrip] at h; exact absurd h (by simp)
  | some s1 =>
    rw [hstrip] at h
    simp only [Option.some_bind] at h
    obtain ⟨d, t, rfl, hc, _⟩ := stripLitCI_cons_some hstrip
    obtain rfl := charEqCI_lbracket hc
    have hlen1 := stripLitCI_length _ _ _ hstrip
    obtain ⟨s2, hs2, hk⟩ := wsStarGreedy_bound s1 _ _ h
    obtain ⟨cs, s3, h3, hK⟩ := lazyPlus_bound _ s2 _ _ hk
    refine ⟨⟨t, rfl⟩, ?_⟩
    cases horl : wsStarGreedy s3
        (fun s4 =>
          match s4 with
          | '|' :: s5 =>
            lazyPlus (fun c => !(c == '\n')) s5 fun g2 s6 =>
              match s6 with
              | ']' :: s7 => some (cs, some g2, s7)
              | _ => none
          | _ => none) with
    | some b =>
      rw [horl] at hK
      simp only [Option.some_orElse] at hK
      obtain rfl := Option.some.inj hK
      obtain ⟨s4, hs4, hk4⟩ := wsStarGreedy_bound s3 _ _ horl
      split at hk4
      · obtain ⟨g2cs, s6, h6, hK2⟩ := lazyPlus_bound _ _ _ _ hk4
        split at hK2
        · simp only [Option.some.injEq, Prod.mk.injEq] at hK2
          obtain ⟨rfl, rfl, rfl⟩ := hK2
          simp only [List.length_cons] at h3 h6 hs4 hlen1 ⊢
          omega
        · exact absurd hK2 (by simp)
      · exact absurd hk4 (by simp)
    | none =>
      rw [horl] at hK
      simp only [Option.none_orElse] at hK
      split at hK
      · simp only [Option.some.injEq, Prod.mk.injEq] at hK
        obtain ⟨rfl, rfl, rfl⟩ := hK
        simp only [List.length_cons] at h3 hlen1 ⊢
        omega
      · exact absurd hK (by simp)

/-- `matchGoalAt` starts at `'['` and consumes at least one character. -/
theorem matchGoalAt_bound {s g1 : List Char} {g2 : Option (List Char)}
    {r : List Char} (h : matchGoalAt s = some (g1, g2, r)) :
    (∃ t2, s = '[' :: t2) ∧ r.length < s.length := by
  unfold matchGoalAt at h
  cases hstrip : stripLitCI "[GOAL:".data s with
  | none => rw [hstrip] at h; exact absurd h (by simp)
  | some s1 =>
    rw [hstrip] at h
    simp only [Option.some_bind] at h
    obtain ⟨d, t, rfl, hc, _⟩ := stripLitCI_cons_some hstrip
    obtain rfl := charEqCI_lbracket hc
    have hlen1 := stripLitCI_length _ _ _ hstrip
    obtain ⟨s2, hs2, hk⟩ := wsStarGreedy_bound s1 _ _ h
    obtain ⟨cs, s3, h3, hK⟩ := lazyPlus_bound _ s2 _ _ hk
    refine ⟨⟨t, rfl⟩, ?_⟩
    cases horl : wsStarGreedy s3
        (fun s4 =>
          match s4 with
          | '|' :: s5 =>
            wsStarGreedy s5 fun s6 =>
            (stripLitCI "DEADLINE:".data s6).bind fun s7 =>
            wsStarGreedy s7 fun s8 =>
            lazyPlus (fun c => !(c == '\n')) s8 fun g2 s9 =>
              match s9 with
              | ']' :: s10 => some (cs, some g2, s10)
              | _ => none
          | _ => none) with
    | some b =>
      rw [horl] at hK
      simp only [Option.some_orElse] at hK
      obtain rfl := Option.some.inj hK
      obtain ⟨s4, hs4, hk4⟩ := wsStarGreedy_bound s3 _ _ horl
      simp only [] at hk4
      split at hk4
      · obtain ⟨s6, hs6, hk6⟩ := wsStarGreedy_bound _ _ _ hk4
        cases hstrip2 : stripLitCI "DEADLINE:".data s6 with
        | none => rw [hstrip2] at hk6; exact absurd hk6 (by simp)
        | some s7 =>
          rw [hstrip2] at hk6
          simp only [Option.some_bind] at hk6
          have hlen7 := stripLitCI_length _ _ _ hstrip2
          obtain ⟨s8, hs8, hk8⟩ := wsStarGreedy_bound s7 _ _ hk6
          obtain ⟨g2cs, s9, h9, hK2⟩ := lazyPlus_bound _ _ _ _ hk8
          split at hK2
          · simp only [Option.some.injEq, Prod.mk.injEq] at hK2
            obtain ⟨rfl, rfl, rfl⟩ := hK2
            simp only [List.length_cons] at h3 h9 hs4 hlen1 hlen7 ⊢
            omega
          · exact absurd hK2 (by simp)
      · exact absurd hk4 (by simp)
    | none =>
      rw [horl] at hK
      simp only [Option.none_orElse] at hK
      split at hK
      · simp only [Option.some.injEq, Prod.mk.injEq] at hK
        obtain ⟨rfl, rfl, rfl⟩ := hK
        simp only [List.length_cons] at h3 hlen1 ⊢
        omega
      · exact absurd hK (by simp)

/-- Without a `'['` nothing matches (all four patterns open with one). -/
theorem matchActionAt_none {s : List Char} (hs : '[' ∉ s) :
    matchActionAt s = none := by
  unfold matchActionAt
  rw [show ("[ACTION:".data : List Char) = '[' :: "ACTION:".data from rfl,
    stripLitCI_lbracket_none hs]
  rfl

theorem matchRememberAt_none {s : List Char} (hs : '[' ∉ s) :
    matchRememberAt s = none := by
  unfold matchRememberAt
  rw [show ("[REMEMBER:".data : List Char) = '[' :: "REMEMBER:".data from rfl,
    stripLitCI_lbracket_none hs]
  rfl

theorem matchGoalAt_none {s : List Char} (hs : '[' ∉ s) :
    matchGoalAt s = none := by
  unfold matchGoalAt
  rw [show ("[GOAL:".data : List Char) = '[' :: "GOAL:".data from rfl,
    stripLitCI_lbracket_none hs]
  rfl

theorem matchDoneAt_none {s : List Char} (hs : '[' ∉ s) :
    matchDoneAt s = none := by
  unfold matchDoneAt
  rw [show ("[DONE:".data : List Char) = '[' :: "DONE:".data from rfl,
    stripLitCI_lbracket_none hs]
  rfl

/-- Scanning text without `'['` yields no matches. -/
theorem scanTagsAux_eq_nil
    (matchAt : List Char → Option (List Char × Option (List Char) × List Char))
    (hm : ∀ s : List Char, '[' ∉ s → matchAt s = none) :
    ∀ (fuel : Nat) (s : List Char), '[' ∉ s → scanTagsAux matchAt fuel s = [] := by
  intro fuel
  induction fuel with
  | zero => intro s _; rfl
  | succ n ih =>
    intro s h
    cases s with
    | nil => rfl
    | cons c rest =>
      have h2 : '[' ∉ rest := fun hh => h (List.mem_cons_of_mem _ hh)
      simp only [scanTagsAux, hm _ h]
      exact ih rest h2

/-- `scanTags` version of the previous lemma. -/
theorem scanTags_eq_nil
    (matchAt : List Char → Option (List Char × Option (List Char) × List Char))
    (hm : ∀ s : List Char, '[' ∉ s → matchAt s = none)
    (s : List Char) (h : '[' ∉ s) : scanTags matchAt s = [] :=
  scanTagsAux_eq_nil matchAt hm (s.length + 1) s h

/-- Every matched substring produced by scanning contains a `'['`. -/
theorem scanTags_mem_lbracket
    (matchAt : List Char → Option (List Char × Option (List Char) × List Char))
    (hb : ∀ {s g1 : List Char} {g2 : Option (List Char)} {r : List Char},
      matchAt s = some (g1, g2, r) → (∃ t2, s = '[' :: t2) ∧ r.length < s.length) :
    ∀ (fuel : Nat) (s : List Char) (m : TagMatch),
      m ∈ scanTagsAux matchAt fuel s → '[' ∈ m.1 := by
  intro fuel
  induction fuel with
  | zero => intro s m h; simp [scanTagsAux] at h
  | succ n ih =>
    intro s m h
    cases s with
    | nil => simp [scanTagsAux] at h
    | cons c rest =>
      simp only [scanTagsAux] at h
      cases hm : matchAt (c :: rest) with
      | some res =>
        obtain ⟨g1, g2, r⟩ := res
        rw [hm] at h
        rcases List.mem_cons.1 h with rfl | h2
        · obtain ⟨⟨t2, heq⟩, hlen⟩ := hb hm
          obtain ⟨hc, -⟩ := List.cons_eq_cons.1 heq
          subst hc
          show '[' ∈ List.take (('[' :: rest).length - r.length) ('[' :: rest)
          cases hk : ('[' :: rest).length - r.length with
          | zero =>
            exfalso
            simp only [List.length_cons] at hlen hk
            omega
          | succ n2 =>
            rw [List.take_succ_cons]
            exact List.mem_cons_self _ _
        · exact ih r m h2
      | none =>
        rw [hm] at h
        exact ih rest m h

/-- C8 (counterexample): on `"[ACT[ACTION: x]ION: x]"` exactly one tag
(`"[ACTION: x]"`) is matched, yet deleting it splices the surrounding
characters into a new `"[ACTION: x]"`: the cleaned text still contains
the matched bracketed substring and re-running extraction yields a
directive — tag stripping is not idempotent. -/
theorem c8_idempotence_counterexample :
    (scanTags matchActionAt ("[ACT[ACTION: x]ION: x]" : String).data).map
        (fun m => String.mk m.1) = ["[ACTION: x]"]
    ∧ processResponseClean [] "t0" "[ACT[ACTION: x]ION: x]" = "[ACTION: x]"
    ∧ List.IsInfix ("[ACTION: x]" : String).data
        (processResponseClean [] "t0" "[ACT[ACTION: x]ION: x]").data
    ∧ (extractActions (processResponseClean [] "t0" "[ACT[ACTION: x]ION: x]")).2 ≠ [] := by
  refine ⟨by decide, by decide, ?_, by decide⟩
  rw [show processResponseClean [] "t0" "[ACT[ACTION: x]ION: x]"
      = "[ACTION: x]" from by decide]

/-- C8 (amended): tag stripping is not idempotent in general (deleting
a matched tag can splice a new one, see the counterexample); but
whenever the fully cleaned text contains no `'['` — in particular for
texts whose tags do not overlap — re-running action extraction and all
three intent matchers on the cleaned text yields zero directives, and
none of the originally matched bracketed substrings occurs in the
cleaned text. -/
theorem c8_idempotence_amended (store : List MemRow) (now : String) (T : String)
    (hnb : '[' ∉ (processResponseClean store now T).data) :
    (extractActions (processResponseClean store now T)).2 = []
    ∧ scanTags matchRememberAt (processResponseClean store now T).data = []
    ∧ scanTags matchGoalAt (processResponseClean store now T).data = []
    ∧ scanTags matchDoneAt (processResponseClean store now T).data = []
    ∧ (∀ m ∈ scanTags matchActionAt T.data,
        ¬ List.IsInfix m.1 (processResponseClean store now T).data) := by
  refine ⟨?_, ?_, ?_, ?_, ?_⟩
  · show ((scanTags matchActionAt (processResponseClean store now T).data).map
      toParsedAction) = []
    rw [scanTags_eq_nil matchActionAt (fun s hs => matchActionAt_none hs) _ hnb]
    rfl
  · exact scanTags_eq_nil matchRememberAt (fun s hs => matchRememberAt_none hs) _ hnb
  · exact scanTags_eq_nil matchGoalAt (fun s hs => matchGoalAt_none hs) _ hnb
  · exact scanTags_eq_nil matchDoneAt (fun s hs => matchDoneAt_none hs) _ hnb
  · intro m hm hinf
    have hmem : '[' ∈ m.1 :=
      scanTags_mem_lbracket matchActionAt (fun h => matchActionAt_bound h)
        (T.data.length + 1) T.data m hm
    exact hnb (hinf.subset hmem)

set_option maxRecDepth 8192 in
/-- C8 witness: the Scenario A text cleans to `"Sure!  Done."`, which
has no bracket, so re-extraction is empty. -/
theorem c8_idempotence_amended_witness :
    (extractActions (processResponseClean [] "t0" scenarioAInput)).2 = []
    ∧ scanTags matchRememberAt (processResponseClean [] "t0" scenarioAInput).data = []
    ∧ scanTags matchGoalAt (processResponseClean [] "t0" scenarioAInput).data = []
    ∧ scanTags matchDoneAt (processResponseClean [] "t0" scenarioAInput).data = [] := by
  have h := c8_idempotence_amended [] "t0" scenarioAInput (by decide)
  exact ⟨h.1, h.2.1, h.2.2.1, h.2.2.2.1⟩
